import Mathlib

/-!
Shallow embedding of the `jx` CLI subcommand logic (Go) in Lean 4, together
with theorems settling the specification claims about it.

Go strings are modelled as Lean `String` values (character-wise; the code
under study only manipulates them at whole-character granularity).
Go `nil`-able values are modelled with `Option`; functions returning
`(T, error)` are modelled with `Except String T` or explicit pairs.
External collaborators (Kubernetes clients, git providers, the file
system) are abstracted to their observable inputs/outputs, exactly as the
claims quantify over them.
-/

/-! ## Generic Go string helpers (strings.HasPrefix / Contains / TrimPrefix) -/

/-- Go `strings.HasPrefix(s, pre)`. -/
def goHasPre (s pre : String) : Bool :=
  pre.data.isPrefixOf s.data

/-- Go `strings.Contains(s, sub)`. -/
def goContains (s sub : String) : Bool :=
  decide (sub.data <:+: s.data)

/-- Go `strings.TrimPrefix(s, pre)`. -/
def goStripPre (s pre : String) : String :=
  if goHasPre s pre then ⟨s.data.drop pre.data.length⟩ else s

/-! ## C1: UpdateWebhooksOptions.matchesWebhookURL (update_webhooks.go) -/

/-- The fields of `gits.GitWebHookArguments` consulted by the matcher. -/
structure GitWebHookArguments where
  URL : String

/-- The fields of `UpdateWebhooksOptions` consulted by `matchesWebhookURL`.
The git provider argument is abstracted to the string its `Kind()` method
returns. -/
structure UpdateWebhooksOptions where
  PreviousHookUrl : String
  ExactHookMatch : Bool

/-- Embedding of `UpdateWebhooksOptions.matchesWebhookURL`. -/
def matchesWebhookURL (o : UpdateWebhooksOptions) (gitKind : String)
    (webhookURL : String) (webHookArgs : GitWebHookArguments) : Bool :=
  if o.PreviousHookUrl ≠ "" then
    o.PreviousHookUrl == webHookArgs.URL
  else if gitKind == "gitlab" then
    goHasPre webHookArgs.URL webhookURL
  else if o.ExactHookMatch then
    webhookURL == webHookArgs.URL
  else
    goContains webHookArgs.URL "hook.jx"

/-! ## C8: the dead "no default namespace found" branch
(StepVerifyIngressOptions.Run, step_verify_ingress.go) -/

/-- Embedding of the namespace-resolution preamble of
`StepVerifyIngressOptions.Run`: `ns := o.Namespace; if ns == "" { ns =
os.Getenv("DEPLOY_NAMESPACE") }; if ns != "" { if ns == "" { return
fmt.Errorf("no default namespace found") } }`.  Returns the error that this
fragment would return, if any. -/
def verifyIngressNamespaceError (flagNamespace envDeployNamespace : String) :
    Option String :=
  let ns := if flagNamespace == "" then envDeployNamespace else flagNamespace
  if ns != "" then
    (if ns == "" then some "no default namespace found" else none)
  else
    none

/-! ## C10: escapeAsCode (step_pr_comment.go) -/

/-- Embedding of `escapeAsCode`. -/
def escapeAsCode (comment : String) : String :=
  "```\n" ++ comment

/-- The comment text `StepPRCommentOptions.Run` hands to the provider's
`AddPRComment`: the raw comment, or `escapeAsCode` of it when the `--code`
flag is set. -/
def stepPRCommentText (code : Bool) (comment : String) : String :=
  if code then escapeAsCode comment else comment

/-! ## C2: CreateDevPodOptions.findDevPodBySelector (create_devpod.go)

The Kubernetes pod-list call is abstracted to the list of pods it returns
(the claim quantifies over "every list of pods returned by the
label-selector query"); the claim then concerns only the pure selection
loop.  A pod is modelled by the fields the loop consults. -/

/-- Value of the `kube.AnnotationLocalDir` annotation key (external
constant from pkg/kube; only its identity matters to the selection). -/
def AnnotationLocalDir : String := "jenkins-x.io/devpodLocalDir"

/-- The fields of `corev1.Pod` consulted by `findDevPodBySelector`.
`annotations` is `none` when the Go annotation map is nil. -/
structure DevPod where
  name : String
  deletionTimestamp : Option Nat
  annotations : Option (List (String × String))
  deriving DecidableEq

/-- Go map indexing `ann[key]` after the nil-map guard: a missing key (or a
nil map) yields the empty string. -/
def annLookup (ann : Option (List (String × String))) (key : String) :
    String :=
  match ann with
  | none => ""
  | some m => (m.lookup key).getD ""

/-- The loop-body condition of `findDevPodBySelector`: the pod is not being
deleted and its local-dir annotation equals `dir` when syncing, `""`
otherwise. -/
def devPodMatches (sync : Bool) (dir : String) (p : DevPod) : Bool :=
  let matchDir := if sync then dir else ""
  p.deletionTimestamp.isNone &&
    (annLookup p.annotations AnnotationLocalDir == matchDir)

/-- Embedding of the selection loop of
`CreateDevPodOptions.findDevPodBySelector`: return the first listed pod
satisfying `devPodMatches`, else the nil pod (`none`); no error is produced
on this path. -/
def findDevPodBySelector (sync : Bool) (pods : List DevPod) (dir : String) :
    Option DevPod :=
  match pods with
  | [] => none
  | p :: rest =>
    if devPodMatches sync dir p then some p
    else findDevPodBySelector sync rest dir

/-! ## C6: StepPRCommentOptions.Run flag/env validation (step_pr_comment.go)

The environment is abstracted to the three variables the code reads; an
unset variable is the empty string (Go `os.Getenv`).  The validation
happens before any git auth service or provider is constructed, which the
embedding reflects by being a pure function of the flags and environment
alone. -/

/-- The flag set of the `jx step pr comment` command. -/
structure StepPRCommentFlags where
  comment : String
  owner : String
  repository : String
  pr : String
  code : Bool
  deriving DecidableEq

/-- The environment variables read by `StepPRCommentOptions.Run`. -/
structure PREnv where
  pullNumber : String
  repoOwner : String
  repoName : String
  deriving DecidableEq

/-- Embedding of the flag-filling / validation preamble of
`StepPRCommentOptions.Run`: each empty flag is filled from its environment
variable and then checked, in source order; on success the filled flag set
is returned. -/
def stepPRCommentRunEarly (f : StepPRCommentFlags) (env : PREnv) :
    Except String StepPRCommentFlags :=
  let pr := if f.pr = "" then env.pullNumber else f.pr
  if pr = "" then .error "no Pull Request number provided"
  else
    let owner := if f.owner = "" then env.repoOwner else f.owner
    if owner = "" then .error "no Git owner provided"
    else
      let repo := if f.repository = "" then env.repoName else f.repository
      if repo = "" then .error "no Git repository provided"
      else if f.comment = "" then .error "no comment provided"
      else .ok { f with pr := pr, owner := owner, repository := repo }

/-! ## C7: Options.renderResult (get.go)

`json.Marshal value` / `yaml.Marshal value` and the output stream are
external; the embedding takes the outcome of each marshalling and of a
write as parameters and returns the propagated error (if any) together
with the list of writes performed on `o.Out`. -/

/-- Embedding of `Options.renderResult`.  `jsonMarshal` / `yamlMarshal`
are the outcomes of marshalling the value; `writeErr` is the error the
stream write would report, if any.  Result: (returned error, data written
to the output stream). -/
def renderResult (jsonMarshal yamlMarshal : Except String String)
    (writeErr : Option String) (format : String) :
    Option String × List String :=
  if format == "json" then
    match jsonMarshal with
    | .error e => (some e, [])
    | .ok data =>
      match writeErr with
      | some we => (some we, [data])
      | none => (none, [data])
  else if format == "yaml" then
    match yamlMarshal with
    | .error e => (some e, [])
    | .ok data =>
      match writeErr with
      | some we => (some we, [data])
      | none => (none, [data])
  else
    (some ("Unsupported output format: " ++ format), [])

/-! ## C3: StepVerifyPreInstallOptions.ValidateRequirements (step_verify_preinstall.go)

`gits.IsGitHubServerURL` and `naming.ToValidName` live outside the
repository slice under study, so the embedding is parameterised by them
(the claim only mentions them abstractly).  `SaveConfig` is assumed to
succeed (the claim's proviso) and is modelled as appending the saved
configuration to a write log, so "the requirements file has not been
rewritten" is "the write log is empty". -/

/-- `config.WebhookType` (the enum values relevant to the command). -/
inductive WebhookType where
  | prow
  | lighthouse
  | jenkins
  | noHook
  deriving DecidableEq

/-- `config.RepositoryType`. -/
inductive RepositoryType where
  | bucketRepo
  | nexus
  | team
  | unknownRepo
  deriving DecidableEq

/-- The fields of `config.ClusterConfig` consulted by
`ValidateRequirements`. -/
structure ClusterConfig where
  gitKind : String
  gitServer : String
  clusterName : String
  chartRepository : String
  deriving DecidableEq

/-- The fields of `config.EnvironmentConfig` consulted by
`ValidateRequirements`. -/
structure EnvironmentConfig where
  key : String
  repository : String
  deriving DecidableEq

/-- The fields of `config.RequirementsConfig` consulted by
`ValidateRequirements`. -/
structure RequirementsConfig where
  webhook : WebhookType
  repository : RepositoryType
  cluster : ClusterConfig
  environments : List EnvironmentConfig
  deriving DecidableEq

/-- Embedding of `StepVerifyPreInstallOptions.ValidateRequirements`
(successful-write path).  Returns (outcome, final requirements, write log
of configurations saved to the requirements file). -/
def validateRequirements (isGitHubServerURL : String → Bool)
    (toValidName : String → String) (r : RequirementsConfig)
    (fileName : String) :
    Except String Unit × RequirementsConfig × List RequirementsConfig :=
  let prowErr : Option String :=
    if r.webhook = WebhookType.prow then
      let kind := r.cluster.gitKind
      let server := r.cluster.gitServer
      if (kind ≠ "" ∧ kind ≠ "github") ∨
          (server ≠ "" ∧ isGitHubServerURL server = false) then
        some ("invalid requirements in file " ++ fileName ++
          " cannot use prow as a webhook for git kind: " ++ kind ++
          " server: " ++ server ++ ". Please try using lighthouse instead")
      else none
    else none
  match prowErr with
  | some e => (.error e, r, [])
  | none =>
    let chartDefault := r.repository = RepositoryType.bucketRepo ∧
      r.cluster.chartRepository = ""
    let rChart := { r with cluster :=
      { r.cluster with chartRepository :=
          "http://bucketrepo/bucketrepo/charts/" } }
    let r1 := if chartDefault then rChart else r
    let w1 : List RequirementsConfig := if chartDefault then [rChart] else []
    let clusterName := r1.cluster.clusterName
    let namePart := if clusterName ≠ "" then clusterName ++ "-" else clusterName
    let envs := r1.environments.map fun env =>
      if env.repository = "" then
        { env with repository :=
            toValidName ("environment-" ++ namePart ++ env.key) }
      else env
    let modified := r1.environments.any fun env => env.repository == ""
    let r2 := if modified then { r1 with environments := envs } else r1
    let w2 : List RequirementsConfig :=
      if modified then [{ r1 with environments := envs }] else []
    (.ok (), r2, w1 ++ w2)

/-! ## C9: CreateBucketHTTPFn (step_unstash.go)

The auth service is abstracted to the kind it records for a server URL and
the ordered user auths it yields for a server URL; `gits.ParseGitURL(u)`
followed by `HostURL()` is abstracted to the `gitServerURL` parameter (the
claim speaks of "u's git server").  The returned header-mutating closure is
modelled by `HeaderEffect`. -/

/-- One `auth.UserAuth` as consulted by the transform function. -/
structure UserAuth where
  username : String
  apiToken : String
  deriving DecidableEq

/-- The observable behaviour of the auth config: the server kind registered
for a server URL (none when `GetServer` returns nil) and the user auths for
a server URL, in order. -/
structure AuthStub where
  getServerKind : String → Option String
  findUserAuths : String → List UserAuth

/-- What the returned header function does to a request. -/
inductive HeaderEffect where
  | noop
  | privateToken (token : String)
  deriving DecidableEq

/-- Go `strings.Index(s, sub)` (character-level): index of the first
occurrence of `sub`, or none (Go: -1). -/
def firstInfixIdx : List Char → List Char → Option Nat
  | s, sub =>
    if sub.isPrefixOf s then some 0
    else
      match s with
      | [] => none
      | _ :: rest =>
        match firstInfixIdx rest sub with
        | some i => some (i + 1)
        | none => none

/-- Embedding of the URL-rewriting tail of the transform function:
`idx := strings.Index(urlText, "://"); if idx > 0 { idx += 3; urlText =
urlText[0:idx] + tokenPrefix + "@" + urlText[idx:] }`. -/
def insertTokenAfterScheme (urlText tokenPre : String) : String :=
  match firstInfixIdx urlText.data ("://").data with
  | some idx =>
    if idx > 0 then
      ⟨urlText.data.take (idx + 3) ++ tokenPre.data ++
        '@' :: urlText.data.drop (idx + 3)⟩
    else urlText
  | none => urlText

/-- Embedding of the transform function returned by `CreateBucketHTTPFn`.
`authSvc = none` models a nil auth service.  Returns (rewritten URL, header
effect, returned error).  The GitHub-Enterprise branch (`gitKind == github
&& !gitInfo.IsGitHub()`) assigns the same token prefix as the default
branch and is folded into it. -/
def bucketHTTPTransform (authSvc : Option AuthStub) (gitServerURL : String)
    (urlText : String) : String × HeaderEffect × Option String :=
  match authSvc with
  | none => (urlText, HeaderEffect.noop, none)
  | some cfg =>
    let gitKind := (cfg.getServerKind gitServerURL).getD ""
    let firstTok := (cfg.findUserAuths gitServerURL).find?
      fun a => a.apiToken ≠ ""
    let baseTok : String :=
      match firstTok with
      | none => ""
      | some a =>
        if gitKind = "bitbucketserver" then a.username ++ ":" ++ a.apiToken
        else if gitKind = "gitlab" then ""
        else a.apiToken
    let headerFunc : HeaderEffect :=
      match firstTok with
      | none => HeaderEffect.noop
      | some a =>
        if gitKind = "bitbucketserver" then HeaderEffect.noop
        else if gitKind = "gitlab" then HeaderEffect.privateToken a.apiToken
        else HeaderEffect.noop
    let tokenPre :=
      if gitServerURL = "https://raw.githubusercontent.com" then
        match (cfg.findUserAuths "https://github.com").find?
            (fun a => a.apiToken ≠ "") with
        | some a => a.apiToken
        | none => baseTok
      else baseTok
    let url :=
      if tokenPre ≠ "" then insertTokenAfterScheme urlText tokenPre
      else urlText
    (url, headerFunc, none)

/-- Amended-claim side (C9): the first user auth with a non-empty API token
that the auth service yields for a server URL. -/
def specC9ServerTok (cfg : AuthStub) (serverURL : String) : Option UserAuth :=
  (cfg.findUserAuths serverURL).find? fun a => a.apiToken ≠ ""

/-- Amended-claim side (C9): the kind registered for the git server
(empty when the server is unknown). -/
def specC9Kind (cfg : AuthStub) (gitServerURL : String) : String :=
  (cfg.getServerKind gitServerURL).getD ""

/-- Amended-claim side (C9): the token prefix determined by the git
server's own auths: `username:token` for bitbucketserver, nothing for
gitlab (the token travels in the header instead), the bare token
otherwise. -/
def specC9BaseTok (cfg : AuthStub) (gitServerURL : String) : String :=
  match specC9ServerTok cfg gitServerURL with
  | none => ""
  | some a =>
    if specC9Kind cfg gitServerURL = "bitbucketserver" then
      a.username ++ ":" ++ a.apiToken
    else if specC9Kind cfg gitServerURL = "gitlab" then ""
    else a.apiToken

/-- Amended-claim side (C9): the token prefix actually inserted — for the
raw.githubusercontent.com host the token found for https://github.com
overrides the base token (which is kept when github.com yields none). -/
def specC9Tok (cfg : AuthStub) (gitServerURL : String) : String :=
  if gitServerURL = "https://raw.githubusercontent.com" then
    match specC9ServerTok cfg "https://github.com" with
    | some a => a.apiToken
    | none => specC9BaseTok cfg gitServerURL
  else specC9BaseTok cfg gitServerURL

/-- Amended-claim side (C9): the header effect — the PRIVATE-TOKEN header is
set exactly when the git server's kind is gitlab and the server's auths
yield a non-empty token. -/
def specC9Header (cfg : AuthStub) (gitServerURL : String) : HeaderEffect :=
  match specC9ServerTok cfg gitServerURL with
  | none => HeaderEffect.noop
  | some a =>
    if specC9Kind cfg gitServerURL = "bitbucketserver" then HeaderEffect.noop
    else if specC9Kind cfg gitServerURL = "gitlab" then
      HeaderEffect.privateToken a.apiToken
    else HeaderEffect.noop

/-! ## C5: uniquePodName (create_devpod.go)

`util.StringArrayIndex` (external, pkg/util: index of a value in a slice,
-1 when absent) and `strconv.Itoa` (Go standard library: decimal
representation) are embedded below.  The unbounded `for` loop of
`uniquePodName` is embedded with a fuel of `names.length + 2` iterations;
the C5 theorem proves this fuel always suffices (the loop terminates), so
the embedding agrees with the loop. -/

/-- Embedding of `util.StringArrayIndex`: the index of the first occurrence
of `s`, or -1. -/
def stringArrayIndex : List String → String → Int
  | [], _ => -1
  | x :: rest, s =>
    if x = s then 0
    else
      let r := stringArrayIndex rest s
      if r < 0 then -1 else r + 1

/-- Embedding of `strconv.Itoa` on naturals: standard decimal notation. -/
def itoa (n : Nat) : String :=
  if n = 0 then "0"
  else ⟨(Nat.digits 10 n).reverse.map Nat.digitChar⟩

/-- The candidate name the loop body of `uniquePodName` builds for a given
counter value: the prefix alone for count 1, `prefix ++ Itoa count`
afterwards. -/
def candName (pre : String) (count : Nat) : String :=
  if count > 1 then pre ++ itoa count else pre

/-- The loop of `uniquePodName`, with explicit fuel: try `candName pre
count`, return it when it is not taken, else advance the counter. -/
def uniquePodNameGo (names : List String) (pre : String) :
    Nat → Nat → Option String
  | 0, _ => none
  | fuel + 1, count =>
    if stringArrayIndex names (candName pre count) < 0 then
      some (candName pre count)
    else uniquePodNameGo names pre fuel (count + 1)

/-- Embedding of `uniquePodName`: the loop starting at count 1, with fuel
`names.length + 2` (shown sufficient by the C5 theorem). -/
def uniquePodName (names : List String) (pre : String) : String :=
  (uniquePodNameGo names pre (names.length + 2) 1).getD pre

/-! ## C4: FindDevPodLabelFromJenkinsfile (create_devpod.go)

The file read is abstracted to the file's content (the claim quantifies
over every file content).  Go `strings.Split(content, "\n")` and
`strings.TrimSpace` are embedded below.  The fixed regular expression
`label\s+"(.+)"` is embedded directly with Go's (RE2, leftmost-first)
semantics: the match starts at the leftmost possible position; `\s+` is
the maximal non-empty whitespace run (a shorter run is followed by another
whitespace character, never by the required quote, so backtracking cannot
produce a different match); the greedy `(.+)` makes the closing quote the
last quote of the remainder, with at least one captured character.  Since
lines contain no newline, the newline exclusions of `.` and the regex are
vacuous. -/

/-- RE2 `\s`: `[\t\n\f\r ]`. -/
def goIsSpaceRE2 (c : Char) : Bool :=
  c == '\t' || c == '\n' || c == '\x0c' || c == '\r' || c == ' '

/-- Go `unicode.IsSpace` (the Unicode White_Space property). -/
def goUnicodeIsSpace (c : Char) : Bool :=
  c == ' ' || c == '\t' || c == '\n' || c == '\x0b' || c == '\x0c' ||
  c == '\r' || c == '\x85' || c == '\xA0' || c == '\u1680' ||
  ('\u2000' ≤ c && c ≤ '\u200A') || c == '\u2028' || c == '\u2029' ||
  c == '\u202F' || c == '\u205F' || c == '\u3000'

/-- Go `strings.TrimSpace`. -/
def goTrimSpace (s : String) : String :=
  ⟨((s.data.dropWhile goUnicodeIsSpace).reverse.dropWhile
      goUnicodeIsSpace).reverse⟩

/-- Go `strings.Split(·, "\n")` on the character list: every newline is a
separator; the empty input yields one empty field. -/
def splitLines : List Char → List (List Char)
  | [] => [[]]
  | c :: rest =>
    if c = '\n' then [] :: splitLines rest
    else
      match splitLines rest with
      | head :: tail => (c :: head) :: tail
      | [] => [[c]]

/-- Go `strings.Split(s, "\n")`. -/
def goSplitNewlines (s : String) : List String :=
  (splitLines s.data).map fun l => ⟨l⟩

/-- Match of `label\s+"(.+)"` anchored at the head of the character list,
returning the captured group: the literal "label", a non-empty whitespace
run, a quote, then the greedy capture up to the last quote (at least one
character). -/
def matchLabelAt (cs : List Char) : Option String :=
  if ("label").data.isPrefixOf cs then
    let rest := cs.drop 5
    let sp := rest.takeWhile goIsSpaceRE2
    let rest2 := rest.dropWhile goIsSpaceRE2
    if sp.length = 0 then none
    else
      match rest2 with
      | '"' :: body =>
        match body.reverse.findIdx? (fun c => c == '"') with
        | some k =>
          let j := body.length - 1 - k
          if 1 ≤ j then some ⟨body.take j⟩ else none
        | none => none
      | _ => none
  else none

/-- Leftmost match of `label\s+"(.+)"` in the character list (Go
`FindStringSubmatch`, capture group 1). -/
def scanLabel : List Char → Option String
  | [] => none
  | c :: rest =>
    match matchLabelAt (c :: rest) with
    | some cap => some cap
    | none => scanLabel rest

/-- `r.FindStringSubmatch(text)` for the compiled `label\s+"(.+)"`,
reduced to the captured group (`none` when there is no match). -/
def matchLabelLine (text : String) : Option String :=
  scanLabel text.data

/-- The error message built when the agent label is not an available
DevPod label. -/
def cannotFindMsg (a : String) (labels : List String) : String :=
  "cannot find pipeline agent " ++ a ++
    " in the list of available DevPods: " ++ String.intercalate ", " labels

/-- Embedding of the line loop of `FindDevPodLabelFromJenkinsfile`. -/
def findDevPodLabelLines (labels : List String) :
    List String → Except String String
  | [] => Except.ok ""
  | line :: rest =>
    let text := goTrimSpace line
    match matchLabelLine text with
    | some a =>
      if a ≠ "" then
        if stringArrayIndex labels a ≥ 0 then Except.ok a
        else
          if goHasPre a "jenkins-" then
            let a2 := goStripPre a "jenkins-"
            if stringArrayIndex labels a2 ≥ 0 then Except.ok a2
            else Except.error (cannotFindMsg a2 labels)
          else Except.error (cannotFindMsg a labels)
      else findDevPodLabelLines labels rest
    | none => findDevPodLabelLines labels rest

/-- Embedding of `FindDevPodLabelFromJenkinsfile` on the file's content
(the `ioutil.ReadFile` and `regexp.Compile` error paths are outside the
claim, which quantifies over the content of a readable file). -/
def FindDevPodLabelFromJenkinsfile (content : String)
    (labels : List String) : Except String String :=
  findDevPodLabelLines labels (goSplitNewlines content)

/-! ## Theorems -/

/-- C1: `matchesWebhookURL` returns true iff: when `PreviousHookUrl` is
non-empty, the stored webhook URL equals it; otherwise for gitlab kind, the
stored URL starts with the target URL; otherwise with `ExactHookMatch`, the
stored URL equals the target; otherwise the stored URL contains "hook.jx" —
and in that last case the result is independent of the target URL. -/
theorem c1_matchesWebhookURL_spec (o : UpdateWebhooksOptions) (gitKind : String)
    (u : String) (W : GitWebHookArguments) :
    (matchesWebhookURL o gitKind u W = true ↔
      (if o.PreviousHookUrl ≠ "" then W.URL = o.PreviousHookUrl
       else if gitKind = "gitlab" then goHasPre W.URL u = true
       else if o.ExactHookMatch = true then W.URL = u
       else goContains W.URL "hook.jx" = true)) ∧
    (o.PreviousHookUrl = "" → gitKind ≠ "gitlab" → o.ExactHookMatch = false →
      ∀ u' : String, matchesWebhookURL o gitKind u W =
        matchesWebhookURL o gitKind u' W) := by
  have hb : ∀ a b : String, ((a == b) = true ↔ b = a) := by
    intro a b
    rw [beq_iff_eq]
    exact eq_comm
  constructor
  · by_cases h1 : o.PreviousHookUrl = ""
    · by_cases h2 : gitKind = "gitlab"
      · simp [matchesWebhookURL, h1, h2]
      · by_cases h3 : o.ExactHookMatch
        · simp [matchesWebhookURL, h1, h2, Ne.symm h2, h3, hb]
        · simp [matchesWebhookURL, h1, h2, Ne.symm h2, h3]
    · simp [matchesWebhookURL, h1, hb]
  · intro h1 h2 h3 u'
    simp [matchesWebhookURL, h1, h2, h3]

/-- Witness for C1 at a concrete input (discharging the hypotheses of the
independence conjunct). -/
theorem c1_matchesWebhookURL_spec_witness :
    matchesWebhookURL ⟨"", false⟩ "github" "https://a.example"
        ⟨"http://hook.jx.example/x"⟩ =
      matchesWebhookURL ⟨"", false⟩ "github" "https://b.example"
        ⟨"http://hook.jx.example/x"⟩ :=
  (c1_matchesWebhookURL_spec ⟨"", false⟩ "github" "https://a.example"
      ⟨"http://hook.jx.example/x"⟩).2 rfl (by decide) rfl "https://b.example"

/-- C8: the branch returning "no default namespace found" in
`StepVerifyIngressOptions.Run` is unreachable: it is guarded by `ns == ""`
directly inside a block entered only when `ns != ""`, so for every
`--namespace` flag value and every `$DEPLOY_NAMESPACE` value no such error
is produced (in particular an empty namespace is not rejected here). -/
theorem c8_noDefaultNamespaceError_unreachable
    (flagNamespace envDeployNamespace : String) :
    verifyIngressNamespaceError flagNamespace envDeployNamespace = none := by
  unfold verifyIngressNamespaceError
  by_cases h : (if flagNamespace == "" then envDeployNamespace
      else flagNamespace) = ""
  · simp [h]
  · simp [h]

/-- C10: with the `--code` flag set, the text passed to `AddPRComment` is
exactly "```\n" followed by the comment: `escapeAsCode` prepends an opening
Markdown code fence and appends nothing after the comment. -/
theorem c10_escapeAsCode_unclosed_fence (c : String) :
    stepPRCommentText true c = "```\n" ++ c ∧
    (stepPRCommentText true c).data =
      ("```\n").data ++ c.data := by
  refine ⟨rfl, ?_⟩
  simp [stepPRCommentText, escapeAsCode]

/-- C2: `findDevPodBySelector` returns (with no error) the first pod in
list order that is not being deleted and whose local-dir annotation
(missing treated as "") equals `dir` when `Sync` is set and `""` otherwise;
when no listed pod qualifies it returns the nil pod and no error. -/
theorem c2_findDevPodBySelector_first_match (sync : Bool) (pods : List DevPod)
    (dir : String) :
    (∀ p : DevPod, findDevPodBySelector sync pods dir = some p →
      devPodMatches sync dir p = true ∧
      ∃ l1 l2, pods = l1 ++ p :: l2 ∧
        ∀ q ∈ l1, devPodMatches sync dir q = false) ∧
    (findDevPodBySelector sync pods dir = none →
      ∀ p ∈ pods, devPodMatches sync dir p = false) ∧
    ((∃ p ∈ pods, devPodMatches sync dir p = true) →
      findDevPodBySelector sync pods dir ≠ none) := by
  induction pods with
  | nil =>
    refine ⟨?_, ?_, ?_⟩
    · intro p h
      simp [findDevPodBySelector] at h
    · intro _ p hp
      simp at hp
    · rintro ⟨p, hp, _⟩
      simp at hp
  | cons q rest ih =>
    refine ⟨?_, ?_, ?_⟩
    · intro p h
      by_cases hq : devPodMatches sync dir q = true
      · simp only [findDevPodBySelector, hq, if_true, Option.some.injEq] at h
        subst h
        exact ⟨hq, [], rest, rfl, by intro x hx; simp at hx⟩
      · simp only [findDevPodBySelector, hq, if_false] at h
        obtain ⟨hmatch, l1, l2, hsplit, hnone⟩ := ih.1 p h
        refine ⟨hmatch, q :: l1, l2, by rw [hsplit]; rfl, ?_⟩
        intro x hx
        rcases List.mem_cons.mp hx with hx | hx
        · subst hx
          exact Bool.eq_false_iff.mpr hq
        · exact hnone x hx
    · intro h p hp
      by_cases hq : devPodMatches sync dir q = true
      · simp [findDevPodBySelector, hq] at h
      · simp only [findDevPodBySelector, hq, if_false] at h
        rcases List.mem_cons.mp hp with hp | hp
        · subst hp
          exact Bool.eq_false_iff.mpr hq
        · exact ih.2.1 h p hp
    · rintro ⟨p, hp, hmatch⟩ hnone
      by_cases hq : devPodMatches sync dir q = true
      · simp [findDevPodBySelector, hq] at hnone
      · simp only [findDevPodBySelector, hq, if_false] at hnone
        rcases List.mem_cons.mp hp with hp | hp
        · subst hp
          exact hq hmatch
        · exact absurd (ih.2.1 hnone p hp) (by simp [hmatch])

/-- Witness for C2 at a concrete input: a list where the second pod is the
first (and only) match. -/
theorem c2_findDevPodBySelector_first_match_witness :
    devPodMatches true "/w" ⟨"b", none, some [(AnnotationLocalDir, "/w")]⟩ =
        true ∧
    ∃ l1 l2,
      [(⟨"a", some 3, none⟩ : DevPod),
       ⟨"b", none, some [(AnnotationLocalDir, "/w")]⟩] = l1 ++
        (⟨"b", none, some [(AnnotationLocalDir, "/w")]⟩ : DevPod) :: l2 ∧
      ∀ q ∈ l1, devPodMatches true "/w" q = false :=
  (c2_findDevPodBySelector_first_match true
      [⟨"a", some 3, none⟩, ⟨"b", none, some [(AnnotationLocalDir, "/w")]⟩]
      "/w").1
    ⟨"b", none, some [(AnnotationLocalDir, "/w")]⟩ (by decide)

/-- C6: after filling empty flags from `$PULL_NUMBER`, `$REPO_OWNER` and
`$REPO_NAME`, `StepPRCommentOptions.Run` fails exactly when the filled PR
number, owner or repository, or the comment, is empty — the checks run in
that order, so the first failing one determines the error; otherwise it
proceeds with the filled flag values. -/
theorem c6_stepPRComment_validation (f : StepPRCommentFlags) (env : PREnv) :
    (let pr := if f.pr = "" then env.pullNumber else f.pr
     let owner := if f.owner = "" then env.repoOwner else f.owner
     let repo := if f.repository = "" then env.repoName else f.repository
     ((∃ e, stepPRCommentRunEarly f env = .error e) ↔
        (pr = "" ∨ owner = "" ∨ repo = "" ∨ f.comment = "")) ∧
     (pr = "" →
        stepPRCommentRunEarly f env = .error "no Pull Request number provided") ∧
     (pr ≠ "" → owner = "" →
        stepPRCommentRunEarly f env = .error "no Git owner provided") ∧
     (pr ≠ "" → owner ≠ "" → repo = "" →
        stepPRCommentRunEarly f env = .error "no Git repository provided") ∧
     (pr ≠ "" → owner ≠ "" → repo ≠ "" → f.comment = "" →
        stepPRCommentRunEarly f env = .error "no comment provided") ∧
     (pr ≠ "" → owner ≠ "" → repo ≠ "" → f.comment ≠ "" →
        stepPRCommentRunEarly f env =
          .ok { f with pr := pr, owner := owner, repository := repo })) := by
  by_cases h1 : (if f.pr = "" then env.pullNumber else f.pr) = "" <;>
    by_cases h2 : (if f.owner = "" then env.repoOwner else f.owner) = "" <;>
      by_cases h3 :
          (if f.repository = "" then env.repoName else f.repository) = "" <;>
        by_cases h4 : f.comment = "" <;>
          simp [stepPRCommentRunEarly, h1, h2, h3, h4]

/-- Witness for C6 at a concrete input: the PR number flag is empty and is
not filled by the environment, so the first check fails. -/
theorem c6_stepPRComment_validation_witness :
    stepPRCommentRunEarly ⟨"hello", "jo", "repo", "", false⟩ ⟨"", "x", "y"⟩ =
      .error "no Pull Request number provided" :=
  (c6_stepPRComment_validation ⟨"hello", "jo", "repo", "", false⟩
      ⟨"", "x", "y"⟩).2.1 (by decide)

/-- C7: `renderResult` writes exactly the JSON marshalling for format
"json" and exactly the YAML marshalling for format "yaml", propagating any
marshal or write error; any other format writes nothing and yields the
error "Unsupported output format: " followed by the format. -/
theorem c7_renderResult_spec (jsonMarshal yamlMarshal : Except String String)
    (writeErr : Option String) (format : String) :
    (format = "json" →
      ((∀ d, jsonMarshal = .ok d →
          renderResult jsonMarshal yamlMarshal writeErr format =
            (writeErr, [d])) ∧
       (∀ e, jsonMarshal = .error e →
          renderResult jsonMarshal yamlMarshal writeErr format =
            (some e, [])))) ∧
    (format = "yaml" →
      ((∀ d, yamlMarshal = .ok d →
          renderResult jsonMarshal yamlMarshal writeErr format =
            (writeErr, [d])) ∧
       (∀ e, yamlMarshal = .error e →
          renderResult jsonMarshal yamlMarshal writeErr format =
            (some e, [])))) ∧
    (format ≠ "json" → format ≠ "yaml" →
      renderResult jsonMarshal yamlMarshal writeErr format =
        (some ("Unsupported output format: " ++ format), [])) := by
  refine ⟨?_, ?_, ?_⟩
  · rintro rfl
    constructor
    · rintro d rfl
      cases writeErr <;> simp [renderResult]
    · rintro e rfl
      simp [renderResult]
  · rintro rfl
    constructor
    · rintro d rfl
      cases writeErr <;> simp [renderResult]
    · rintro e rfl
      simp [renderResult]
  · intro h1 h2
    simp [renderResult, h1, h2]

/-- Witness for C7 at a concrete input: an unsupported format produces the
specific error and no writes. -/
theorem c7_renderResult_spec_witness :
    renderResult (.ok "\x7b\x7d") (.ok "a: 1") none "table" =
      (some ("Unsupported output format: " ++ "table"), []) :=
  (c7_renderResult_spec (.ok "\x7b\x7d") (.ok "a: 1") none "table").2.2
    (by decide) (by decide)

/-- C3: assuming config-file writes succeed, `ValidateRequirements` returns
an error iff the webhook is prow and the git kind is non-empty and not
"github", or the git server is non-empty and not a GitHub server URL; and
on that error the requirements are unmodified and the requirements file has
not been rewritten. -/
theorem c3_validateRequirements_prow_guard
    (isGitHubServerURL : String → Bool) (toValidName : String → String)
    (r : RequirementsConfig) (fileName : String) :
    ((∃ e, (validateRequirements isGitHubServerURL toValidName r
        fileName).1 = .error e) ↔
      (r.webhook = WebhookType.prow ∧
        ((r.cluster.gitKind ≠ "" ∧ r.cluster.gitKind ≠ "github") ∨
         (r.cluster.gitServer ≠ "" ∧
           isGitHubServerURL r.cluster.gitServer = false)))) ∧
    (∀ e, (validateRequirements isGitHubServerURL toValidName r
        fileName).1 = .error e →
      (validateRequirements isGitHubServerURL toValidName r
        fileName).2.1 = r ∧
      (validateRequirements isGitHubServerURL toValidName r
        fileName).2.2 = []) := by
  by_cases hw : r.webhook = WebhookType.prow
  · by_cases hc : (r.cluster.gitKind ≠ "" ∧ r.cluster.gitKind ≠ "github") ∨
        (r.cluster.gitServer ≠ "" ∧
          isGitHubServerURL r.cluster.gitServer = false)
    · have hres : validateRequirements isGitHubServerURL toValidName r
          fileName =
          (.error ("invalid requirements in file " ++ fileName ++
            " cannot use prow as a webhook for git kind: " ++
            r.cluster.gitKind ++ " server: " ++ r.cluster.gitServer ++
            ". Please try using lighthouse instead"), r, []) := by
        simp only [validateRequirements, if_pos hw, if_pos hc]
      rw [hres]
      refine ⟨⟨fun _ => ⟨hw, hc⟩, fun _ => ⟨_, rfl⟩⟩, ?_⟩
      intro e _
      exact ⟨rfl, rfl⟩
    · have h1 : (validateRequirements isGitHubServerURL toValidName r
          fileName).1 = .ok () := by
        simp only [validateRequirements, if_pos hw, if_neg hc]
      refine ⟨⟨?_, ?_⟩, ?_⟩
      · rintro ⟨e, he⟩
        rw [h1] at he
        exact absurd he (by simp)
      · rintro ⟨_, hcc⟩
        exact absurd hcc hc
      · intro e he
        rw [h1] at he
        exact absurd he (by simp)
  · have h1 : (validateRequirements isGitHubServerURL toValidName r
        fileName).1 = .ok () := by
      simp only [validateRequirements, if_neg hw]
    refine ⟨⟨?_, ?_⟩, ?_⟩
    · rintro ⟨e, he⟩
      rw [h1] at he
      exact absurd he (by simp)
    · rintro ⟨hww, _⟩
      exact absurd hww hw
    · intro e he
      rw [h1] at he
      exact absurd he (by simp)

/-- Witness for C3 at a concrete input: a prow webhook with a gitlab git
kind is rejected, leaving the requirements and the file untouched. -/
theorem c3_validateRequirements_prow_guard_witness :
    (validateRequirements (fun u => u = "https://github.com")
        (fun s => s) ⟨WebhookType.prow, RepositoryType.nexus,
          ⟨"gitlab", "", "", ""⟩, []⟩ "req.yml").2.1 =
      ⟨WebhookType.prow, RepositoryType.nexus, ⟨"gitlab", "", "", ""⟩, []⟩ ∧
    (validateRequirements (fun u => u = "https://github.com")
        (fun s => s) ⟨WebhookType.prow, RepositoryType.nexus,
          ⟨"gitlab", "", "", ""⟩, []⟩ "req.yml").2.2 = [] :=
  (c3_validateRequirements_prow_guard (fun u => u = "https://github.com")
      (fun s => s) ⟨WebhookType.prow, RepositoryType.nexus,
        ⟨"gitlab", "", "", ""⟩, []⟩ "req.yml").2
    ("invalid requirements in file req.yml cannot use prow as a webhook for git kind: gitlab server: . Please try using lighthouse instead")
    (by rfl)

/-- C9 counterexample: with an auth service holding no token for the git
server of `u` (the raw.githubusercontent.com host) but a token for
https://github.com, the claim requires the returned URL to equal `u`
unchanged, yet the code inserts the github.com token after the scheme. -/
theorem c9_counterexample :
    (AuthStub.mk (fun _ => none)
        (fun s => if s = "https://github.com" then [⟨"bob", "tok"⟩] else
          [])).findUserAuths "https://raw.githubusercontent.com" = [] ∧
    (bucketHTTPTransform
        (some (AuthStub.mk (fun _ => none)
          (fun s => if s = "https://github.com" then [⟨"bob", "tok"⟩] else [])))
        "https://raw.githubusercontent.com"
        "https://raw.githubusercontent.com/owner/repo/master/f.txt").1 =
      "https://tok@raw.githubusercontent.com/owner/repo/master/f.txt" ∧
    (bucketHTTPTransform
        (some (AuthStub.mk (fun _ => none)
          (fun s => if s = "https://github.com" then [⟨"bob", "tok"⟩] else [])))
        "https://raw.githubusercontent.com"
        "https://raw.githubusercontent.com/owner/repo/master/f.txt").1 ≠
      "https://raw.githubusercontent.com/owner/repo/master/f.txt" := by
  refine ⟨rfl, by decide, by decide⟩

/-- C9 amended: the transform always returns a nil error; the PRIVATE-TOKEN
header is set (to the server's first non-empty token) exactly for the
gitlab kind, a no-op otherwise; the inserted token prefix is the one of the
original claim except that for the https://raw.githubusercontent.com host
the token found for https://github.com overrides it; and the insertion
places `token@` (or `username:token@`) right after the first `"://"` when
that occurrence starts at a positive index, leaving the URL unchanged when
the token is empty, when `"://"` is absent, or when `"://"` starts the
URL. -/
theorem c9_bucketHTTPFn_amended (cfg : AuthStub) (gitServerURL u : String) :
    (bucketHTTPTransform (some cfg) gitServerURL u).2.2 = none ∧
    (bucketHTTPTransform (some cfg) gitServerURL u).2.1 =
      specC9Header cfg gitServerURL ∧
    (∀ a, specC9ServerTok cfg gitServerURL = some a →
      specC9Kind cfg gitServerURL = "gitlab" →
      (bucketHTTPTransform (some cfg) gitServerURL u).2.1 =
        HeaderEffect.privateToken a.apiToken) ∧
    (specC9Tok cfg gitServerURL = "" →
      (bucketHTTPTransform (some cfg) gitServerURL u).1 = u) ∧
    (specC9Tok cfg gitServerURL ≠ "" →
      (∀ i, firstInfixIdx u.data ("://").data = some i →
        (0 < i → (bucketHTTPTransform (some cfg) gitServerURL u).1 =
          ⟨u.data.take (i + 3) ++ (specC9Tok cfg gitServerURL).data ++
            '@' :: u.data.drop (i + 3)⟩) ∧
        (i = 0 → (bucketHTTPTransform (some cfg) gitServerURL u).1 = u)) ∧
      (firstInfixIdx u.data ("://").data = none →
        (bucketHTTPTransform (some cfg) gitServerURL u).1 = u)) := by
  have hopen : bucketHTTPTransform (some cfg) gitServerURL u =
      ((if specC9Tok cfg gitServerURL ≠ "" then
          insertTokenAfterScheme u (specC9Tok cfg gitServerURL)
        else u),
       specC9Header cfg gitServerURL, none) := by
    simp only [bucketHTTPTransform, specC9Tok, specC9BaseTok, specC9Header,
      specC9ServerTok, specC9Kind]
  rw [hopen]
  refine ⟨rfl, rfl, ?_, ?_, ?_⟩
  · intro a ha hk
    simp [specC9Header, ha, hk]
  · intro h
    simp [h]
  · intro h
    refine ⟨?_, ?_⟩
    · intro i hi
      constructor
      · intro hpos
        simp [h, insertTokenAfterScheme, hi, hpos]
      · rintro rfl
        simp [h, insertTokenAfterScheme, hi]
    · intro hi
      simp [h, insertTokenAfterScheme, hi]

/-- Witness for the amended C9 theorem at a concrete input (the
raw.githubusercontent.com override, token inserted after the scheme). -/
theorem c9_bucketHTTPFn_amended_witness :
    (bucketHTTPTransform
        (some (AuthStub.mk (fun _ => none)
          (fun s => if s = "https://github.com" then
            [UserAuth.mk "bob" "tok"] else [])))
        "https://raw.githubusercontent.com"
        "https://raw.githubusercontent.com/o/r/f.txt").1 =
      ⟨("https://raw.githubusercontent.com/o/r/f.txt").data.take (5 + 3) ++
        (specC9Tok (AuthStub.mk (fun _ => none)
          (fun s => if s = "https://github.com" then
            [UserAuth.mk "bob" "tok"] else []))
          "https://raw.githubusercontent.com").data ++
        '@' :: ("https://raw.githubusercontent.com/o/r/f.txt").data.drop
          (5 + 3)⟩ :=
  (((c9_bucketHTTPFn_amended
      (AuthStub.mk (fun _ => none)
        (fun s => if s = "https://github.com" then
          [UserAuth.mk "bob" "tok"] else []))
      "https://raw.githubusercontent.com"
      "https://raw.githubusercontent.com/o/r/f.txt").2.2.2.2
    (by decide)).1 5 (by decide)).1 (by decide)

/-- `(a ++ b).data = a.data ++ b.data` for strings. -/
theorem strDataAppend (a b : String) : (a ++ b).data = a.data ++ b.data :=
  rfl

/-- Strings with equal underlying character lists are equal. -/
theorem strExt {a b : String} (h : a.data = b.data) : a = b := by
  cases a
  cases b
  cases h
  rfl

/-- String length of an append. -/
theorem strLenAppend (a b : String) :
    (a ++ b).length = a.length + b.length := by
  show (a ++ b).data.length = a.data.length + b.data.length
  rw [strDataAppend]
  exact List.length_append _ _

/-- `stringArrayIndex` is negative exactly on absent values. -/
theorem stringArrayIndex_neg_iff (names : List String) (s : String) :
    stringArrayIndex names s < 0 ↔ s ∉ names := by
  induction names with
  | nil =>
    simp only [stringArrayIndex, List.not_mem_nil, not_false_eq_true, iff_true]
    decide
  | cons x rest ih =>
    by_cases hx : x = s
    · subst hx
      have hunf : stringArrayIndex (x :: rest) x = 0 := by
        simp [stringArrayIndex]
      rw [hunf]
      constructor
      · intro h
        exact absurd h (by decide)
      · intro h
        exact absurd (List.mem_cons_self x rest) h
    · simp only [stringArrayIndex, hx, if_false]
      by_cases hr : stringArrayIndex rest s < 0
      · have hmem : s ∉ rest := ih.mp hr
        simp only [if_pos hr]
        constructor
        · intro _ hin
          rcases List.mem_cons.mp hin with h | h
          · exact hx h.symm
          · exact hmem h
        · intro _
          decide
      · have hmem : s ∈ rest := by
          by_contra hh
          exact hr (ih.mpr hh)
        rw [if_neg hr]
        push_neg at hr
        constructor
        · intro hlt
          exact absurd hlt (by omega)
        · intro hns
          exact absurd (List.mem_cons_of_mem x hmem) hns

/-- `Nat.digitChar` is injective below 10. -/
theorem digitChar_fin_inj :
    ∀ x y : Fin 10, Nat.digitChar x.val = Nat.digitChar y.val → x = y := by
  decide

/-- Mapping `Nat.digitChar` over lists of decimal digits is cancellable. -/
theorem digitChar_map_cancel : ∀ l1 l2 : List Nat, (∀ d ∈ l1, d < 10) →
    (∀ d ∈ l2, d < 10) → l1.map Nat.digitChar = l2.map Nat.digitChar →
    l1 = l2 := by
  intro l1
  induction l1 with
  | nil =>
    intro l2 _ _ h
    cases l2 with
    | nil => rfl
    | cons b t2 => simp at h
  | cons a t ih =>
    intro l2 h1 h2 h
    cases l2 with
    | nil => simp at h
    | cons b t2 =>
      simp only [List.map_cons, List.cons.injEq] at h
      have ha : a < 10 := h1 a (by simp)
      have hb : b < 10 := h2 b (by simp)
      have hab : a = b := by
        have := digitChar_fin_inj ⟨a, ha⟩ ⟨b, hb⟩ h.1
        simpa using congrArg Fin.val this
      rw [hab,
        ih t2 (fun d hd => h1 d (by simp [hd])) (fun d hd => h2 d (by simp [hd]))
          h.2]

/-- If the decimal representation is "0" the number is 0. -/
theorem itoa_eq_zero_str {n : Nat} (h : itoa n = "0") : n = 0 := by
  by_contra hn
  rw [itoa, if_neg hn] at h
  have hd : (Nat.digits 10 n).reverse.map Nat.digitChar = ("0").data :=
    congrArg String.data h
  have hz : ("0").data = [Nat.digitChar 0] := by decide
  rw [hz] at hd
  have hlt : ∀ d ∈ (Nat.digits 10 n).reverse, d < 10 := by
    intro d hdm
    exact Nat.digits_lt_base (by omega) (List.mem_reverse.mp hdm)
  have h0 : ∀ d ∈ [(0 : Nat)], d < 10 := by decide
  have := digitChar_map_cancel _ _ hlt h0 (by simpa using hd)
  have hdig : Nat.digits 10 n = [0] := by
    have := congrArg List.reverse this
    simpa using this
  have := Nat.ofDigits_digits 10 n
  rw [hdig] at this
  simp [Nat.ofDigits] at this
  exact hn this.symm

/-- `itoa` is injective. -/
theorem itoa_injective : Function.Injective itoa := by
  intro m n h
  by_cases hm : m = 0 <;> by_cases hn : n = 0
  · rw [hm, hn]
  · exfalso
    subst hm
    have h0 : itoa 0 = "0" := rfl
    rw [h0] at h
    exact hn (itoa_eq_zero_str h.symm)
  · exfalso
    subst hn
    have h0 : itoa 0 = "0" := rfl
    rw [h0] at h
    exact hm (itoa_eq_zero_str h)
  · rw [itoa, if_neg hm, itoa, if_neg hn] at h
    have hd := congrArg String.data h
    have hltm : ∀ d ∈ (Nat.digits 10 m).reverse, d < 10 := by
      intro d hdm
      exact Nat.digits_lt_base (by omega) (List.mem_reverse.mp hdm)
    have hltn : ∀ d ∈ (Nat.digits 10 n).reverse, d < 10 := by
      intro d hdm
      exact Nat.digits_lt_base (by omega) (List.mem_reverse.mp hdm)
    have := digitChar_map_cancel _ _ hltm hltn hd
    have hrev := congrArg List.reverse this
    simp only [List.reverse_reverse] at hrev
    exact Nat.digits.injective 10 hrev

/-- `itoa` is never empty. -/
theorem itoa_length_pos (n : Nat) : 0 < (itoa n).length := by
  rw [itoa]
  by_cases hn : n = 0
  · rw [if_pos hn]
    decide
  · rw [if_neg hn]
    show 0 < ((Nat.digits 10 n).reverse.map Nat.digitChar).length
    simp only [List.length_map, List.length_reverse]
    exact List.length_pos.mpr (Nat.digits_ne_nil_iff_ne_zero.mpr hn)

/-- Candidate names for distinct counter values are distinct. -/
theorem candName_inj (pre : String) :
    ∀ m n : Nat, candName pre (m + 1) = candName pre (n + 1) → m = n := by
  intro m n h
  rcases m with _ | m <;> rcases n with _ | n
  · rfl
  · exfalso
    rw [candName, candName, if_neg (by omega), if_pos (by omega)] at h
    have := congrArg String.length h
    rw [strLenAppend] at this
    have := itoa_length_pos (n + 1 + 1)
    omega
  · exfalso
    rw [candName, candName, if_pos (by omega), if_neg (by omega)] at h
    have := congrArg String.length h
    rw [strLenAppend] at this
    have := itoa_length_pos (m + 1 + 1)
    omega
  · rw [candName, candName, if_pos (by omega), if_pos (by omega)] at h
    have hd := congrArg String.data h
    rw [strDataAppend, strDataAppend] at hd
    have := List.append_cancel_left hd
    have := itoa_injective (strExt this)
    omega

/-- A successful run of the loop returns the candidate for the least
not-taken counter value in its window. -/
theorem uniquePodNameGo_some (names : List String) (pre : String) :
    ∀ fuel count name, uniquePodNameGo names pre fuel count = some name →
      ∃ i, i < fuel ∧ name = candName pre (count + i) ∧
        stringArrayIndex names (candName pre (count + i)) < 0 ∧
        ∀ j, j < i → ¬ stringArrayIndex names (candName pre (count + j)) < 0 := by
  intro fuel
  induction fuel with
  | zero =>
    intro count name h
    simp [uniquePodNameGo] at h
  | succ fuel ih =>
    intro count name h
    by_cases hc : stringArrayIndex names (candName pre count) < 0
    · rw [uniquePodNameGo, if_pos hc] at h
      refine ⟨0, Nat.succ_pos _, ?_, ?_, ?_⟩
      · rw [Nat.add_zero]
        exact (Option.some.injEq _ _ ▸ h).symm
      · rw [Nat.add_zero]
        exact hc
      · intro j hj
        exact absurd hj (Nat.not_lt_zero j)
    · rw [uniquePodNameGo, if_neg hc] at h
      obtain ⟨i, hilt, hname, hfresh, hmin⟩ := ih (count + 1) name h
      refine ⟨i + 1, by omega, ?_, ?_, ?_⟩
      · rw [show count + (i + 1) = count + 1 + i by omega]
        exact hname
      · rw [show count + (i + 1) = count + 1 + i by omega]
        exact hfresh
      · intro j hj
        rcases j with _ | j
        · rw [Nat.add_zero]
          exact hc
        · rw [show count + (j + 1) = count + 1 + j by omega]
          exact hmin j (by omega)

/-- A failing run of the loop means every candidate in its window was
taken. -/
theorem uniquePodNameGo_none (names : List String) (pre : String) :
    ∀ fuel count, uniquePodNameGo names pre fuel count = none →
      ∀ i, i < fuel → ¬ stringArrayIndex names (candName pre (count + i)) < 0 := by
  intro fuel
  induction fuel with
  | zero =>
    intro count h i hi
    exact absurd hi (Nat.not_lt_zero i)
  | succ fuel ih =>
    intro count h i hi
    by_cases hc : stringArrayIndex names (candName pre count) < 0
    · rw [uniquePodNameGo, if_pos hc] at h
      exact absurd h (by simp)
    · rw [uniquePodNameGo, if_neg hc] at h
      rcases i with _ | i
      · rw [Nat.add_zero]
        exact hc
      · rw [show count + (i + 1) = count + 1 + i by omega]
        exact ih (count + 1) h i (by omega)

/-- Pigeonhole: among the first `names.length + 2` candidate names some one
is not in `names`. -/
theorem candName_exists_fresh (names : List String) (pre : String) :
    ∃ i, i < names.length + 2 ∧ candName pre (1 + i) ∉ names := by
  by_contra hall
  push_neg at hall
  have hinj : Set.InjOn (fun i => candName pre (1 + i))
      ↑(Finset.range (names.length + 2)) := by
    intro a _ b _ hab
    have hab' : candName pre (a + 1) = candName pre (b + 1) := by
      rw [Nat.add_comm a 1, Nat.add_comm b 1]
      exact hab
    exact candName_inj pre a b hab'
  have hsub : (Finset.range (names.length + 2)).image
      (fun i => candName pre (1 + i)) ⊆ names.toFinset := by
    intro s hs
    rw [Finset.mem_image] at hs
    obtain ⟨i, hi, rfl⟩ := hs
    exact List.mem_toFinset.mpr (hall i (Finset.mem_range.mp hi))
  have h1 : ((Finset.range (names.length + 2)).image
      (fun i => candName pre (1 + i))).card = names.length + 2 := by
    rw [Finset.card_image_of_injOn hinj, Finset.card_range]
  have h2 := Finset.card_le_card hsub
  have h3 := List.toFinset_card_le names
  omega

/-- C5: `uniquePodName` terminates (the fuel `names.length + 2` suffices)
and returns a name not in `names`; it returns the prefix itself when the
prefix is free, and otherwise the prefix followed by the decimal
representation of the least integer k ≥ 2 making the combination free. -/
theorem c5_uniquePodName_least_fresh (names : List String) (pre : String) :
    (∃ name, uniquePodNameGo names pre (names.length + 2) 1 = some name) ∧
    uniquePodName names pre ∉ names ∧
    (pre ∉ names → uniquePodName names pre = pre) ∧
    (pre ∈ names → ∃ k, 2 ≤ k ∧ uniquePodName names pre = pre ++ itoa k ∧
      (pre ++ itoa k) ∉ names ∧
      ∀ j, 2 ≤ j → j < k → (pre ++ itoa j) ∈ names) := by
  obtain ⟨i, hilt, hfresh⟩ := candName_exists_fresh names pre
  have hnn : uniquePodNameGo names pre (names.length + 2) 1 ≠ none := by
    intro hno
    exact uniquePodNameGo_none names pre _ 1 hno i hilt
      ((stringArrayIndex_neg_iff names _).mpr hfresh)
  obtain ⟨name, hsome⟩ := Option.ne_none_iff_exists'.mp hnn
  obtain ⟨i0, hi0lt, hname, hfresh0, hmin⟩ :=
    uniquePodNameGo_some names pre _ 1 name hsome
  have hu : uniquePodName names pre = name := by
    rw [uniquePodName, hsome]
    rfl
  refine ⟨⟨name, hsome⟩, ?_, ?_, ?_⟩
  · rw [hu, hname]
    exact (stringArrayIndex_neg_iff names _).mp hfresh0
  · intro hpre
    have hz : i0 = 0 := by
      by_contra h0
      apply hmin 0 (Nat.pos_of_ne_zero h0)
      have hc : candName pre (1 + 0) = pre := by
        rw [candName]
        rw [if_neg (by omega)]
      rw [hc]
      exact (stringArrayIndex_neg_iff names _).mpr hpre
    rw [hu, hname, hz]
    rw [candName, if_neg (by omega)]
  · intro hpre
    have h1 : 1 ≤ i0 := by
      rcases Nat.eq_zero_or_pos i0 with h0 | h0
      · exfalso
        rw [h0] at hfresh0
        have hc : candName pre (1 + 0) = pre := by
          rw [candName, if_neg (by omega)]
        rw [hc] at hfresh0
        exact (stringArrayIndex_neg_iff names _).mp hfresh0 hpre
      · exact h0
    have hcand : candName pre (1 + i0) = pre ++ itoa (1 + i0) := by
      rw [candName, if_pos (by omega)]
    refine ⟨1 + i0, by omega, ?_, ?_, ?_⟩
    · rw [hu, hname, hcand]
    · rw [← hcand]
      exact (stringArrayIndex_neg_iff names _).mp hfresh0
    · intro j h2j hjk
      have hj1 : j - 1 < i0 := by omega
      have hmem := hmin (j - 1) hj1
      have hc : candName pre (1 + (j - 1)) = pre ++ itoa j := by
        rw [show 1 + (j - 1) = j by omega]
        rw [candName, if_pos (by omega)]
      rw [hc] at hmem
      by_contra hnm
      exact hmem ((stringArrayIndex_neg_iff names _).mpr hnm)

/-- Witness for C5 at a concrete input: the prefix is taken, so the least
free suffix k = 2 is appended. -/
theorem c5_uniquePodName_least_fresh_witness :
    ∃ k, 2 ≤ k ∧ uniquePodName ["pod"] "pod" = "pod" ++ itoa k ∧
      ("pod" ++ itoa k) ∉ ["pod"] ∧
      ∀ j, 2 ≤ j → j < k → ("pod" ++ itoa j) ∈ ["pod"] :=
  (c5_uniquePodName_least_fresh ["pod"] "pod").2.2.2 (by decide)

/-- Lines whose trimmed text yields no (non-empty) capture are skipped by
the loop. -/
theorem findDevPodLabelLines_skip (labels : List String) :
    ∀ l1 : List String,
      (∀ m ∈ l1, ∀ b, matchLabelLine (goTrimSpace m) = some b → b = "") →
      ∀ rest, findDevPodLabelLines labels (l1 ++ rest) =
        findDevPodLabelLines labels rest := by
  intro l1
  induction l1 with
  | nil =>
    intro _ rest
    rfl
  | cons m t ih =>
    intro h rest
    have htail : ∀ m' ∈ t, ∀ b,
        matchLabelLine (goTrimSpace m') = some b → b = "" :=
      fun m' hm' b hb => h m' (List.mem_cons_of_mem _ hm') b hb
    rw [List.cons_append]
    rcases hmm : matchLabelLine (goTrimSpace m) with _ | b
    · simp only [findDevPodLabelLines, hmm]
      exact ih htail rest
    · have hb : b = "" := h m (List.mem_cons_self m t) b hmm
      subst hb
      simp only [findDevPodLabelLines, hmm, ne_eq, not_true_eq_false,
        if_false]
      exact ih htail rest

/-- `stringArrayIndex` is non-negative exactly on present values. -/
theorem stringArrayIndex_nonneg_iff (labels : List String) (s : String) :
    stringArrayIndex labels s ≥ 0 ↔ s ∈ labels := by
  constructor
  · intro hge
    by_contra hmemn
    have := (stringArrayIndex_neg_iff labels s).mpr hmemn
    omega
  · intro hmem
    by_contra hlt
    push_neg at hlt
    exact (stringArrayIndex_neg_iff labels s).mp hlt hmem

/-- C4: the loop acts on the first line whose trimmed text matches
`label\s+"(.+)"` with a non-empty capture `a`: it returns `a` when `a` is
an available label, the "jenkins-"-stripped remainder when that is, and
otherwise the cannot-find error (about the possibly stripped name); later
lines are never consulted.  When no line produces a non-empty capture the
result is `("", nil)`. -/
theorem c4_findDevPodLabel_first_matching_line (content : String)
    (labels : List String) :
    ((∀ m ∈ goSplitNewlines content, ∀ b,
        matchLabelLine (goTrimSpace m) = some b → b = "") →
      FindDevPodLabelFromJenkinsfile content labels = Except.ok "") ∧
    (∀ l1 line l2 a, goSplitNewlines content = l1 ++ line :: l2 →
      (∀ m ∈ l1, ∀ b, matchLabelLine (goTrimSpace m) = some b → b = "") →
      matchLabelLine (goTrimSpace line) = some a → a ≠ "" →
      ((a ∈ labels →
          FindDevPodLabelFromJenkinsfile content labels = Except.ok a) ∧
       (a ∉ labels → goHasPre a "jenkins-" = true →
          goStripPre a "jenkins-" ∈ labels →
          FindDevPodLabelFromJenkinsfile content labels =
            Except.ok (goStripPre a "jenkins-")) ∧
       (a ∉ labels → goHasPre a "jenkins-" = true →
          goStripPre a "jenkins-" ∉ labels →
          FindDevPodLabelFromJenkinsfile content labels =
            Except.error (cannotFindMsg (goStripPre a "jenkins-") labels)) ∧
       (a ∉ labels → goHasPre a "jenkins-" = false →
          FindDevPodLabelFromJenkinsfile content labels =
            Except.error (cannotFindMsg a labels)) ∧
       (∀ l2', findDevPodLabelLines labels (l1 ++ line :: l2') =
          FindDevPodLabelFromJenkinsfile content labels))) := by
  constructor
  · intro hall
    rw [FindDevPodLabelFromJenkinsfile]
    have hskip := findDevPodLabelLines_skip labels (goSplitNewlines content)
      hall []
    rw [List.append_nil] at hskip
    rw [hskip]
    rfl
  · intro l1 line l2 a hsplit hskip hmatch hne
    have hred : FindDevPodLabelFromJenkinsfile content labels =
        findDevPodLabelLines labels (line :: l2) := by
      rw [FindDevPodLabelFromJenkinsfile, hsplit]
      exact findDevPodLabelLines_skip labels l1 hskip (line :: l2)
    have hstep : ∀ rest : List String,
        findDevPodLabelLines labels (line :: rest) =
          (if stringArrayIndex labels a ≥ 0 then Except.ok a
           else if goHasPre a "jenkins-" then
             (if stringArrayIndex labels (goStripPre a "jenkins-") ≥ 0 then
                Except.ok (goStripPre a "jenkins-")
              else
                Except.error (cannotFindMsg (goStripPre a "jenkins-") labels))
           else Except.error (cannotFindMsg a labels)) := by
      intro rest
      simp only [findDevPodLabelLines, hmatch]
      rw [if_pos hne]
    refine ⟨?_, ?_, ?_, ?_, ?_⟩
    · intro hmem
      rw [hred, hstep l2,
        if_pos ((stringArrayIndex_nonneg_iff labels a).mpr hmem)]
    · intro hnm hpre hmem2
      rw [hred, hstep l2,
        if_neg (fun hge => hnm ((stringArrayIndex_nonneg_iff labels a).mp hge)),
        if_pos hpre,
        if_pos ((stringArrayIndex_nonneg_iff labels _).mpr hmem2)]
    · intro hnm hpre hnm2
      rw [hred, hstep l2,
        if_neg (fun hge => hnm ((stringArrayIndex_nonneg_iff labels a).mp hge)),
        if_pos hpre,
        if_neg (fun hge =>
          hnm2 ((stringArrayIndex_nonneg_iff labels _).mp hge))]
    · intro hnm hpre
      rw [hred, hstep l2,
        if_neg (fun hge => hnm ((stringArrayIndex_nonneg_iff labels a).mp hge)),
        if_neg (by rw [hpre]; exact Bool.false_ne_true)]
    · intro l2'
      rw [hred, findDevPodLabelLines_skip labels l1 hskip (line :: l2'),
        hstep l2', hstep l2]

/-- Witness for C4 at a concrete input: the matching line carries a
"jenkins-"-prefixed agent whose stripped remainder is an available
label. -/
theorem c4_findDevPodLabel_first_matching_line_witness :
    FindDevPodLabelFromJenkinsfile "podTemplate \x7b\n  label \"jenkins-maven\"\n\x7d"
        ["maven"] = Except.ok (goStripPre "jenkins-maven" "jenkins-") :=
  ((c4_findDevPodLabel_first_matching_line
      "podTemplate \x7b\n  label \"jenkins-maven\"\n\x7d" ["maven"]).2
    ["podTemplate \x7b"] "  label \"jenkins-maven\"" ["\x7d"] "jenkins-maven"
    (by decide)
    (by
      intro m hm b hb
      have hmem : m = "podTemplate \x7b" := by simpa using hm
      rw [hmem] at hb
      rw [show matchLabelLine (goTrimSpace "podTemplate \x7b") = none from by
        decide] at hb
      exact absurd hb (by simp))
    (by decide) (by decide)).2.1 (by decide) (by decide) (by decide)
